import Mathlib

set_option autoImplicit false

/-!
# Shallow embedding of `src/main.py` (candle relay service)

The Python program is a FastAPI relay:
* a global FIFO `message_queue : Deque[str]` of serialized candle batches,
* a global set `clients : Set[WebSocket]` of subscriber handles,
* a global `active_bybit_ws` handle for the (at most one) upstream kline
  subscription,
* `broadcast_messages` — an endless loop that, on each tick, pops one batch
  when both queue and client set are non-empty and writes it to every client,
  discarding clients whose write raises,
* `bybit_callback` — the normalizer: converts one vendor tick payload (a list
  of raw kline records) to a list of candle dicts and appends the serialized
  batch to the queue; any exception (missing key, non-numeric field) makes it
  append nothing,
* `websocket_endpoint` — registers a client, opens the upstream subscription
  if `active_bybit_ws is None`, and on disconnect discards the client and
  closes the subscription when the registry became empty,
* `read_root` — the `/kline-history` passthrough endpoint.

Modelling choices:
* Python floats and `float(...)`-parsed strings are modelled as `ℚ`; a raw
  field is `Option ℚ` where `none` stands for a missing key or a value on
  which `float(...)` raises (non-numeric).
* JSON serialization (`json.dumps`) is injective on batches and never
  inspected by the relay, so a queue element is modelled as the batch itself
  (`List Candle`) rather than its string image.
* The Python `set` of clients is modelled as a duplicate-free list in
  iteration order; `set.discard` removes the element, i.e. filters it out.
* `open` and `end` are Lean keywords, so the corresponding record fields are
  named `open_` and `end_`; otherwise source names are kept.
-/

/-- A subscriber handle (Python `WebSocket` object identity). -/
abbrev Client := Nat

/-- One normalized candle dict built by `bybit_callback` (lines 65-73). -/
structure Candle where
  close : ℚ
  high : ℚ
  low : ℚ
  open_ : ℚ
  time : ℚ
  start : ℚ
  end_ : ℚ
  confirm : Bool
deriving DecidableEq

/-- One serialized batch in `message_queue` (the `json.dumps` image is
abstracted away; see the header comment). -/
abbrev Batch := List Candle

/-- One raw vendor kline record `m` as accessed by `bybit_callback`:
each numeric field is `some q` when the key is present and `float(...)`
succeeds on it, `none` when the key is missing or the value non-numeric;
`confirm` is `none` when the key is missing. -/
structure RawRecord where
  close : Option ℚ
  high : Option ℚ
  low : Option ℚ
  open_ : Option ℚ
  timestamp : Option ℚ
  start : Option ℚ
  end_ : Option ℚ
  confirm : Option Bool
deriving DecidableEq

/-- The conversion of one raw record performed by the loop body of
`bybit_callback` (lines 65-73); `none` when any field access or
`float(...)` parse raises. -/
def convertRecord (m : RawRecord) : Option Candle := do
  let c ← m.close
  let h ← m.high
  let l ← m.low
  let o ← m.open_
  let t ← m.timestamp
  let st ← m.start
  let en ← m.end_
  let cf ← m.confirm
  pure { close := c, high := h, low := l, open_ := o,
         time := t / 1000 + (3 * 60 * 60),
         start := st / 1000 + (3 * 60 * 60),
         end_ := en / 1000 + (3 * 60 * 60),
         confirm := cf }

/-- The whole `for m in data` loop of `bybit_callback` (lines 64-75):
converts the records in order; the first raising record aborts the whole
batch (the local `converted_messages` list is then discarded). -/
def convertBatch : List RawRecord → Option Batch
  | [] => some []
  | m :: rest => do
    let c ← convertRecord m
    let cs ← convertBatch rest
    pure (c :: cs)

/-- The function `bybit_callback` (lines 58-80) acting on the queue: on success the
serialized batch is appended (line 78); on any exception the error is logged
and the queue is left unchanged. -/
def bybit_callback (data : List RawRecord) (message_queue : List Batch) : List Batch :=
  match convertBatch data with
  | some b => message_queue ++ [b]
  | none => message_queue

/-- Removal of a client from the Python set `clients` (`clients.discard(c)`):
the element is no longer a member afterwards. -/
def discardClient (c : Client) (clients : List Client) : List Client :=
  clients.filter (fun x => x ≠ c)

/-- The body of the `for client in list(clients)` loop of `broadcast_messages`
(lines 50-55), processing the snapshot taken at loop entry. Arguments: the
failure behaviour of each client's `send_text`, the popped message, the part
of the snapshot still to process, and the current registry. Returns the
registry after the loop and the list of attempted `send_text` calls. -/
def sendLoop (fails : Client → Bool) (m : Batch) :
    List Client → List Client → List Client × List (Client × Batch)
  | [], clients => (clients, [])
  | c :: rest, clients =>
    let clients' := if fails c then discardClient c clients else clients
    let r := sendLoop fails m rest clients'
    (r.1, (c, m) :: r.2)

/-- The full relay state: the three globals of `main.py` (lines 16-18) plus
two history (ghost) observations used to state trace properties. -/
structure SysState where
  /-- Models `message_queue : Deque[str]` (line 17), head first. -/
  message_queue : List Batch
  /-- Models `clients : Set[WebSocket]` (line 18), as a duplicate-free list in
  iteration order. -/
  clients : List Client
  /-- whether `active_bybit_ws` (line 16) `is not None`. -/
  active_bybit_ws : Bool
  /-- ghost: number of currently live upstream kline subscriptions
  (incremented by `kline_stream`, decremented by `exit`). -/
  liveSubs : Nat
  /-- ghost: batches popped by the broadcast loop so far, in pop order. -/
  dispatched : List Batch

/-- One iteration ("tick") of the `while True` body of `broadcast_messages`
(lines 47-56): when both the queue and the client set are non-empty
(`if message_queue and clients`), pop one message from the head and run the
send loop over the snapshot `list(clients)`; otherwise do nothing. Returns
the new state and the attempted `send_text` calls of this tick. -/
def broadcastTick (fails : Client → Bool) (s : SysState) :
    SysState × List (Client × Batch) :=
  match s.message_queue, s.clients with
  | m :: rest, c :: cs =>
    let r := sendLoop fails m (c :: cs) (c :: cs)
    ({ s with message_queue := rest, clients := r.1,
              dispatched := s.dispatched ++ [m] }, r.2)
  | _, _ => (s, [])

/-- Addition of a client to the Python set `clients` (`clients.add(c)`,
line 85): a no-op when already present. -/
def addClient (c : Client) (clients : List Client) : List Client :=
  if c ∈ clients then clients else clients ++ [c]

/-- The registration part of `websocket_endpoint` (lines 84-99): accept,
add the client to the registry, and open the upstream kline subscription
when `active_bybit_ws is None`. -/
def connectStep (c : Client) (s : SysState) : SysState :=
  let s' := { s with clients := addClient c s.clients }
  if s'.active_bybit_ws then s'
  else { s' with active_bybit_ws := true, liveSubs := s'.liveSubs + 1 }

/-- The `finally` block of `websocket_endpoint` (lines 111-115): discard the
client and, when the registry became empty while a subscription is live,
close it (`exit()`; `active_bybit_ws = None`). -/
def disconnectStep (c : Client) (s : SysState) : SysState :=
  let s' := { s with clients := discardClient c s.clients }
  if s'.clients = [] ∧ s'.active_bybit_ws then
    { s' with active_bybit_ws := false, liveSubs := s'.liveSubs - 1 }
  else s'

/-- The four kinds of events that touch the relay state. A `tick` event
carries the failure behaviour of each client's `send_text` during that
tick. -/
inductive Ev where
  | connect (c : Client)
  | disconnect (c : Client)
  | upstream (data : List RawRecord)
  | tick (fails : Client → Bool)

/-- One event of the relay system. -/
def stepEv (s : SysState) : Ev → SysState
  | .connect c => connectStep c s
  | .disconnect c => disconnectStep c s
  | .upstream data => { s with message_queue := bybit_callback data s.message_queue }
  | .tick fails => (broadcastTick fails s).1

/-- The initial state: empty queue, no clients, no subscription. -/
def initState : SysState :=
  { message_queue := [], clients := [], active_bybit_ws := false,
    liveSubs := 0, dispatched := [] }

/-- The state reached after a sequence of events from startup. -/
def runEvents (evs : List Ev) : SysState :=
  evs.foldl stepEv initState

/-- The batches an event appends to the queue (empty except for a
successfully converted upstream payload). -/
def enqOf : Ev → List Batch
  | .upstream data => (convertBatch data).toList
  | _ => []

/-- All batches enqueued over a trace, in order. -/
def enqueuedOf : List Ev → List Batch
  | [] => []
  | e :: evs => enqOf e ++ enqueuedOf evs

/-- Whether an event belongs to the connect/disconnect step relation of
`websocket_endpoint`. -/
def connDisc : Ev → Bool
  | .connect _ => true
  | .disconnect _ => true
  | _ => false

/-- Python `x or d` on an `Optional[int]` `x`: `None` and `0` are falsy and
give the default. Models `limit or 200` on line 131. -/
def pyOrInt (x : Option Int) (d : Int) : Int :=
  match x with
  | none => d
  | some v => if v = 0 then d else v

/-- The `kline_params` dict passed to `session.get_kline` (lines 127-134).
`end_` models the optional `"end"` key. -/
structure KlineParams where
  category : String
  symbol : String
  interval : String
  limit : Int
  end_ : Option ℚ
deriving DecidableEq

/-- One entry of the upstream `["result"]["list"]` array as indexed by
`read_root`: `item0` … `item4` are positions 0 … 4 of the raw array
(start-time in ms, open, high, low, close), already parsed as numbers
(`float(...)` on each is the identity here; the claims quantify over
well-formed upstream results). -/
structure RawHistEntry where
  item0 : ℚ
  item1 : ℚ
  item2 : ℚ
  item3 : ℚ
  item4 : ℚ
deriving DecidableEq

/-- One response entry `{time, open, high, low, close}` built on
lines 140-146 (`open` is a Lean keyword, hence `open_`). -/
structure HistCandle where
  time : ℚ
  open_ : ℚ
  high : ℚ
  low : ℚ
  close : ℚ
deriving DecidableEq

/-- Construction of `kline_params` (lines 127-134): the `limit` key is
`limit or 200`; the `end` key is added only when `end` is truthy (`if end:`;
`none` here covers both an absent parameter and the falsy empty string), with
value `(float(end) - 3*60*60) * 1000`. -/
def kline_params (category symbol interval : String) (limit : Option Int)
    (endv : Option ℚ) : KlineParams :=
  let base : KlineParams :=
    { category := category, symbol := symbol, interval := interval,
      limit := pyOrInt limit 200, end_ := none }
  match endv with
  | some e => { base with end_ := some ((e - (3 * 60 * 60)) * 1000) }
  | none => base

/-- The per-entry conversion of lines 140-146. -/
def convertHistEntry (k : RawHistEntry) : HistCandle :=
  { time := k.item0 / 1000 + (3 * 60 * 60), open_ := k.item1,
    high := k.item2, low := k.item3, close := k.item4 }

/-- The endpoint handler `read_root` (lines 118-148) for `/kline-history`, with the
upstream call `session.get_kline` abstracted as the function `get_kline`
from the request params to the `["result"]["list"]` array it returns:
convert each entry in place, then return the reversed list
(`klines_history[::-1]`). -/
def read_root (category symbol interval : String) (limit : Option Int)
    (endv : Option ℚ) (get_kline : KlineParams → List RawHistEntry) :
    List HistCandle :=
  ((get_kline (kline_params category symbol interval limit endv)).map
    convertHistEntry).reverse

/-- A raw record is well-formed when every field `bybit_callback` accesses
is present and (for the numeric ones) parses. -/
def WellFormed (r : RawRecord) : Prop :=
  r.close.isSome = true ∧ r.high.isSome = true ∧ r.low.isSome = true ∧
  r.open_.isSome = true ∧ r.timestamp.isSome = true ∧ r.start.isSome = true ∧
  r.end_.isSome = true ∧ r.confirm.isSome = true

instance (r : RawRecord) : Decidable (WellFormed r) :=
  inferInstanceAs (Decidable (r.close.isSome = true ∧ r.high.isSome = true ∧
    r.low.isSome = true ∧ r.open_.isSome = true ∧ r.timestamp.isSome = true ∧
    r.start.isSome = true ∧ r.end_.isSome = true ∧ r.confirm.isSome = true))

/-- The per-record normalization contract of the spec: prices are the parsed
values, each timestamp field is the raw milliseconds divided by 1000 plus
10800 seconds, and `confirm` is copied through. -/
def Normalizes (r : RawRecord) (c : Candle) : Prop :=
  r.close = some c.close ∧ r.high = some c.high ∧ r.low = some c.low ∧
  r.open_ = some c.open_ ∧
  (∃ t, r.timestamp = some t ∧ c.time = t / 1000 + 10800) ∧
  (∃ t, r.start = some t ∧ c.start = t / 1000 + 10800) ∧
  (∃ t, r.end_ = some t ∧ c.end_ = t / 1000 + 10800) ∧
  r.confirm = some c.confirm

/-! ## Concrete fixtures used by witness theorems -/

/-- A well-formed concrete raw record. -/
def c3rec : RawRecord :=
  { close := some 5, high := some 7, low := some 4, open_ := some 6,
    timestamp := some 1000, start := some 0, end_ := some 60000,
    confirm := some false }

/-- A malformed concrete raw record: the `close` field is missing (or does
not parse). -/
def c4rec : RawRecord :=
  { close := none, high := some 7, low := some 4, open_ := some 6,
    timestamp := some 1000, start := some 0, end_ := some 60000,
    confirm := some false }

/-- A raw record whose `start` (in ms) exceeds both its `timestamp` and its
`end`: the vendor never sends this, but nothing in `bybit_callback` rejects
it. -/
def c9rec : RawRecord :=
  { close := some 1, high := some 2, low := some 1, open_ := some 1,
    timestamp := some 1000, start := some 2000000, end_ := some 2100000,
    confirm := some true }

/-- The candle `bybit_callback` builds from `c9rec`. -/
def c9candle : Candle :=
  { close := 1, high := 2, low := 1, open_ := 1,
    time := 10801, start := 12800, end_ := 12900, confirm := true }

/-- A well-ordered raw record (`start ≤ timestamp`, `start ≤ end`). -/
def c9brec : RawRecord :=
  { close := some 1, high := some 2, low := some 1, open_ := some 1,
    timestamp := some 2000, start := some 1000, end_ := some 61000,
    confirm := some true }

/-- The candle `bybit_callback` builds from `c9brec`, fields written exactly
as the conversion produces them. -/
def c9bcandle : Candle :=
  { close := 1, high := 2, low := 1, open_ := 1,
    time := 2000 / 1000 + (3 * 60 * 60), start := 1000 / 1000 + (3 * 60 * 60),
    end_ := 61000 / 1000 + (3 * 60 * 60), confirm := true }

/-- A concrete confirmed candle (times in shifted seconds). -/
def c1batch : Batch :=
  [{ close := 1, high := 2, low := 1, open_ := 1,
     time := 10801, start := 10801, end_ := 10861, confirm := true }]

/-- A concrete relay state: one queued batch, two clients, live feed. -/
def c1state : SysState :=
  { message_queue := [c1batch], clients := [0, 1], active_bybit_ws := true,
    liveSubs := 1, dispatched := [] }

/-- A send behaviour where exactly client `1` fails. -/
def c5fails : Client → Bool := fun c => c == 1

/-- A concrete request category. -/
def c8cat : String := "linear"

/-- A concrete request symbol. -/
def c8sym : String := "KAITOUSDT"

/-- A concrete request interval. -/
def c8itv : String := "1"

/-- A concrete upstream historical result: one raw kline entry
(newest-first list of length 1). -/
def c8entry : RawHistEntry :=
  { item0 := 0, item1 := 1, item2 := 2, item3 := 3, item4 := 4 }

/-- A concrete upstream query API returning `[c8entry]` for every request. -/
def c8gk : KlineParams → List RawHistEntry := fun _ => [c8entry]

/-! ## Lemmas about the send loop of `broadcast_messages` -/

lemma sendLoop_attempts (fails : Client → Bool) (m : Batch) :
    ∀ (snap clients : List Client),
      (sendLoop fails m snap clients).2 = snap.map (fun c => (c, m)) := by
  intro snap
  induction snap with
  | nil => intro clients; rfl
  | cons c rest ih => intro clients; simp [sendLoop, ih]

lemma sendLoop_subset (fails : Client → Bool) (m : Batch) :
    ∀ (snap clients : List Client) (x : Client),
      x ∉ clients → x ∉ (sendLoop fails m snap clients).1 := by
  intro snap
  induction snap with
  | nil => intro clients x hx; simpa [sendLoop] using hx
  | cons c rest ih =>
    intro clients x hx
    simp only [sendLoop]
    apply ih
    by_cases hf : fails c = true
    · simp only [hf, if_true]
      exact fun hmem => hx (List.mem_of_mem_filter hmem)
    · simpa [hf] using hx

lemma sendLoop_discards (fails : Client → Bool) (m : Batch) :
    ∀ (snap clients : List Client) (A : Client),
      A ∈ snap → fails A = true → A ∉ (sendLoop fails m snap clients).1 := by
  intro snap
  induction snap with
  | nil => intro clients A hA _; cases hA
  | cons c rest ih =>
    intro clients A hA hf
    simp only [sendLoop]
    rcases List.mem_cons.mp hA with rfl | hmem
    · apply sendLoop_subset
      simp [hf, discardClient, List.mem_filter]
    · exact ih _ A hmem hf

/-- C1: on a tick of the broadcast loop, if the relay queue and the client
registry are both non-empty, exactly the head batch is removed from the queue
and a write of it is attempted to every currently registered client (in
registry iteration order); if the queue is non-empty but the registry is
empty, the tick changes nothing and in particular leaves the queue intact. -/
theorem broadcast_tick_spec (s : SysState) (fails : Client → Bool)
    (m : Batch) (rest : List Batch) (hq : s.message_queue = m :: rest) :
    (s.clients ≠ [] →
      (broadcastTick fails s).1.message_queue = rest ∧
      (broadcastTick fails s).2 = s.clients.map (fun c => (c, m))) ∧
    (s.clients = [] → broadcastTick fails s = (s, [])) := by
  constructor
  · intro hc
    cases hcl : s.clients with
    | nil => exact absurd hcl hc
    | cons c cs =>
      simp [broadcastTick, hq, hcl, sendLoop_attempts]
  · intro hc
    simp [broadcastTick, hq, hc]

/-- Witness for `broadcast_tick_spec` at a concrete state with two clients. -/
theorem broadcast_tick_spec_witness :
    c1state.message_queue = c1batch :: [] ∧
    ((c1state.clients ≠ [] →
      (broadcastTick (fun _ => false) c1state).1.message_queue = [] ∧
      (broadcastTick (fun _ => false) c1state).2
        = c1state.clients.map (fun c => (c, c1batch))) ∧
    (c1state.clients = [] → broadcastTick (fun _ => false) c1state = (c1state, []))) :=
  ⟨rfl, broadcast_tick_spec c1state (fun _ => false) c1batch [] rfl⟩

/-! ## FIFO over traces -/

lemma stepEv_dispatch_queue (s : SysState) (e : Ev) :
    (stepEv s e).dispatched ++ (stepEv s e).message_queue
      = s.dispatched ++ (s.message_queue ++ enqOf e) := by
  cases e with
  | connect c =>
    cases hact : s.active_bybit_ws <;> simp [stepEv, connectStep, enqOf, hact]
  | disconnect c =>
    simp only [stepEv, disconnectStep, enqOf]
    split <;> simp
  | upstream data =>
    cases h : convertBatch data <;>
      simp [stepEv, bybit_callback, enqOf, h]
  | tick fails =>
    cases hq : s.message_queue with
    | nil => simp [stepEv, broadcastTick, hq, enqOf]
    | cons m rest =>
      cases hcl : s.clients with
      | nil => simp [stepEv, broadcastTick, hq, hcl, enqOf]
      | cons c cs => simp [stepEv, broadcastTick, hq, hcl, enqOf]

lemma foldl_dispatch_queue (evs : List Ev) :
    ∀ s : SysState,
      (evs.foldl stepEv s).dispatched ++ (evs.foldl stepEv s).message_queue
        = s.dispatched ++ (s.message_queue ++ enqueuedOf evs) := by
  induction evs with
  | nil => intro s; simp [enqueuedOf]
  | cons e evs ih =>
    intro s
    simp only [List.foldl_cons, enqueuedOf]
    rw [ih (stepEv s e), ← List.append_assoc, stepEv_dispatch_queue]
    simp [List.append_assoc]

/-- C2: dispatch is strict FIFO. Over every trace of events from startup,
the batches popped by the broadcast loop followed by the batches still
queued are exactly the batches enqueued by the normalizer, in enqueue
order; hence a batch enqueued earlier is dispatched earlier, each batch
leaves the queue exactly once (at its pop), and a popped batch is never
re-queued — the tick events of the trace may carry arbitrary per-client
write failures, so this holds even when every write of a dispatch fails. -/
theorem relay_fifo (evs : List Ev) :
    (runEvents evs).dispatched ++ (runEvents evs).message_queue
      = enqueuedOf evs := by
  have h := foldl_dispatch_queue evs initState
  simpa [runEvents, initState] using h

/-! ## Upstream subscription lifecycle -/

lemma addClient_ne_nil (c : Client) (l : List Client) : addClient c l ≠ [] := by
  unfold addClient
  split
  · exact List.ne_nil_of_mem (by assumption)
  · simp

lemma connectStep_opens (c : Client) (s : SysState) :
    (connectStep c s).active_bybit_ws = true ∧ (connectStep c s).clients ≠ [] := by
  cases hact : s.active_bybit_ws <;>
    simp [connectStep, hact, addClient_ne_nil]

lemma disconnectStep_inv (c : Client) (s : SysState)
    (h : s.active_bybit_ws = true ↔ s.clients ≠ []) :
    (disconnectStep c s).active_bybit_ws = true
      ↔ (disconnectStep c s).clients ≠ [] := by
  by_cases hnil : discardClient c s.clients = [] <;>
    by_cases hact : s.active_bybit_ws = true
  · simp [disconnectStep, hnil, hact]
  · simp [disconnectStep, hnil, hact]
  · simp [disconnectStep, hnil, hact]
  · have hcl : s.clients = [] := not_not.mp (h.not.mp hact)
    exact absurd (by simp [discardClient, hcl]) hnil

lemma lifecycle_inv (evs : List Ev) :
    ∀ s : SysState, evs.all connDisc = true →
      (s.active_bybit_ws = true ↔ s.clients ≠ []) →
      ((evs.foldl stepEv s).active_bybit_ws = true
        ↔ (evs.foldl stepEv s).clients ≠ []) := by
  induction evs with
  | nil => intro s _ h; exact h
  | cons e evs ih =>
    intro s hall h
    rw [List.all_cons, Bool.and_eq_true] at hall
    simp only [List.foldl_cons]
    refine ih _ hall.2 ?_
    cases e with
    | connect c =>
      obtain ⟨h1, h2⟩ := connectStep_opens c s
      simp [stepEv, h1, h2]
    | disconnect c => exact disconnectStep_inv c s h
    | upstream data => simp [connDisc] at hall
    | tick fails => simp [connDisc] at hall

lemma disconnectStep_closes (c : Client) (s : SysState)
    (h : (disconnectStep c s).clients = []) :
    (disconnectStep c s).active_bybit_ws = false := by
  by_cases hnil : discardClient c s.clients = [] <;>
    by_cases hact : s.active_bybit_ws = true
  · simp [disconnectStep, hnil, hact]
  · have hf : s.active_bybit_ws = false := by simpa using hact
    simp [disconnectStep, hnil, hf]
  · simp [disconnectStep, hnil, hact] at h
  · simp [disconnectStep, hnil, hact] at h

/-- C6: over the connect/disconnect step relation of `websocket_endpoint`,
every reachable state has the upstream subscription closed exactly when the
client registry is empty; moreover a registration event always leaves the
subscription open (in particular the first client's one opens it), and a
deregistration event that empties the registry always leaves it closed. -/
theorem lazy_lifecycle (evs : List Ev) (hevs : evs.all connDisc = true) :
    ((runEvents evs).clients = [] → (runEvents evs).active_bybit_ws = false) ∧
    ((runEvents evs).clients ≠ [] → (runEvents evs).active_bybit_ws = true) ∧
    (∀ c, (connectStep c (runEvents evs)).active_bybit_ws = true) ∧
    (∀ c, (disconnectStep c (runEvents evs)).clients = [] →
      (disconnectStep c (runEvents evs)).active_bybit_ws = false) := by
  have hinv := lifecycle_inv evs initState hevs (by simp [initState])
  refine ⟨?_, hinv.mpr, fun c => (connectStep_opens c _).1,
    fun c => disconnectStep_closes c _⟩
  intro hcl
  rw [runEvents] at hcl ⊢
  rw [Bool.eq_false_iff]
  intro hact
  exact hinv.mp hact hcl

/-- Witness for `lazy_lifecycle`: one client connects then disconnects. -/
theorem lazy_lifecycle_witness :
    ([Ev.connect 0, Ev.disconnect 0].all connDisc = true) ∧
    ((runEvents [Ev.connect 0, Ev.disconnect 0]).clients = [] →
      (runEvents [Ev.connect 0, Ev.disconnect 0]).active_bybit_ws = false) ∧
    ((runEvents [Ev.connect 0, Ev.disconnect 0]).clients ≠ [] →
      (runEvents [Ev.connect 0, Ev.disconnect 0]).active_bybit_ws = true) ∧
    (∀ c, (connectStep c (runEvents [Ev.connect 0, Ev.disconnect 0])).active_bybit_ws = true) ∧
    (∀ c, (disconnectStep c (runEvents [Ev.connect 0, Ev.disconnect 0])).clients = [] →
      (disconnectStep c (runEvents [Ev.connect 0, Ev.disconnect 0])).active_bybit_ws = false) :=
  ⟨rfl, (lazy_lifecycle [Ev.connect 0, Ev.disconnect 0] rfl).1,
   (lazy_lifecycle [Ev.connect 0, Ev.disconnect 0] rfl).2.1,
   (lazy_lifecycle [Ev.connect 0, Ev.disconnect 0] rfl).2.2.1,
   (lazy_lifecycle [Ev.connect 0, Ev.disconnect 0] rfl).2.2.2⟩

lemma liveSubs_inv (evs : List Ev) :
    ∀ s : SysState,
      s.liveSubs = (if s.active_bybit_ws then 1 else 0) →
      (evs.foldl stepEv s).liveSubs
        = (if (evs.foldl stepEv s).active_bybit_ws then 1 else 0) := by
  induction evs with
  | nil => intro s h; exact h
  | cons e evs ih =>
    intro s h
    simp only [List.foldl_cons]
    refine ih _ ?_
    cases e with
    | connect c =>
      cases hact : s.active_bybit_ws <;>
        simp [stepEv, connectStep, hact, h, hact ▸ h]
    | disconnect c =>
      simp only [stepEv, disconnectStep]
      split
      case isTrue hcond =>
        simp only [hcond.2] at h
        simp [h]
      case isFalse hcond => simpa using h
    | upstream data => simpa [stepEv] using h
    | tick fails =>
      cases hq : s.message_queue with
      | nil => simpa [stepEv, broadcastTick, hq] using h
      | cons m rest =>
        cases hcl : s.clients with
        | nil => simpa [stepEv, broadcastTick, hq, hcl] using h
        | cons c cs => simpa [stepEv, broadcastTick, hq, hcl] using h

/-- C7: in every reachable state (under all four event kinds) at most one
upstream kline subscription is live, and a client registration that occurs
while the subscription handle is already set does not open another one. -/
theorem single_subscription (evs : List Ev) :
    (runEvents evs).liveSubs ≤ 1 ∧
    ((runEvents evs).active_bybit_ws = true →
      ∀ c, (connectStep c (runEvents evs)).liveSubs = (runEvents evs).liveSubs) := by
  have h := liveSubs_inv evs initState (by simp [initState])
  rw [runEvents]
  constructor
  · rw [h]; split <;> omega
  · intro hact c
    simp [connectStep, hact]

/-- Witness for `single_subscription`: a second client registers while the
feed opened by the first is live. -/
theorem single_subscription_witness :
    (runEvents [Ev.connect 0]).liveSubs ≤ 1 ∧
    (runEvents [Ev.connect 0]).active_bybit_ws = true ∧
    (connectStep 1 (runEvents [Ev.connect 0])).liveSubs
      = (runEvents [Ev.connect 0]).liveSubs :=
  ⟨(single_subscription [Ev.connect 0]).1, rfl,
   (single_subscription [Ev.connect 0]).2 rfl 1⟩

/-- C5: during one dispatch, a client `A` whose write fails is removed from
the registry by that dispatch, and the write of the popped batch is still
attempted for every client of the dispatch's snapshot. -/
theorem dispatch_fault_isolation (s : SysState) (fails : Client → Bool)
    (m : Batch) (rest : List Batch) (A : Client)
    (hq : s.message_queue = m :: rest) (hA : A ∈ s.clients)
    (hfail : fails A = true) :
    A ∉ (broadcastTick fails s).1.clients ∧
    ∀ B ∈ s.clients, (B, m) ∈ (broadcastTick fails s).2 := by
  cases hcl : s.clients with
  | nil => rw [hcl] at hA; cases hA
  | cons c cs =>
    rw [hcl] at hA
    constructor
    · simp only [broadcastTick, hq, hcl]
      exact sendLoop_discards fails m (c :: cs) (c :: cs) A hA hfail
    · intro B hB
      simp only [broadcastTick, hq, hcl, sendLoop_attempts]
      exact List.mem_map.mpr ⟨B, hB, rfl⟩

/-- Witness for `dispatch_fault_isolation`: client `1` of `[0, 1]` fails. -/
theorem dispatch_fault_isolation_witness :
    c1state.message_queue = c1batch :: [] ∧ 1 ∈ c1state.clients ∧
    c5fails 1 = true ∧
    (1 ∉ (broadcastTick c5fails c1state).1.clients ∧
      ∀ B ∈ c1state.clients, (B, c1batch) ∈ (broadcastTick c5fails c1state).2) :=
  ⟨rfl, by decide, rfl,
   dispatch_fault_isolation c1state c5fails c1batch [] 1 rfl (by decide) rfl⟩

/-! ## Normalizer: well-formed and malformed payloads -/

lemma convertRecord_wellFormed (r : RawRecord) (h : WellFormed r) :
    ∃ c, convertRecord r = some c ∧ Normalizes r c := by
  obtain ⟨h1, h2, h3, h4, h5, h6, h7, h8⟩ := h
  obtain ⟨cv, hcv⟩ := Option.isSome_iff_exists.mp h1
  obtain ⟨hv, hhv⟩ := Option.isSome_iff_exists.mp h2
  obtain ⟨lv, hlv⟩ := Option.isSome_iff_exists.mp h3
  obtain ⟨ov, hov⟩ := Option.isSome_iff_exists.mp h4
  obtain ⟨tv, htv⟩ := Option.isSome_iff_exists.mp h5
  obtain ⟨sv, hsv⟩ := Option.isSome_iff_exists.mp h6
  obtain ⟨ev, hev⟩ := Option.isSome_iff_exists.mp h7
  obtain ⟨fv, hfv⟩ := Option.isSome_iff_exists.mp h8
  refine ⟨{ close := cv, high := hv, low := lv, open_ := ov,
            time := tv / 1000 + (3 * 60 * 60),
            start := sv / 1000 + (3 * 60 * 60),
            end_ := ev / 1000 + (3 * 60 * 60), confirm := fv }, ?_, ?_⟩
  · simp [convertRecord, hcv, hhv, hlv, hov, htv, hsv, hev, hfv]
  · refine ⟨hcv, hhv, hlv, hov, ⟨tv, htv, by norm_num⟩,
      ⟨sv, hsv, by norm_num⟩, ⟨ev, hev, by norm_num⟩, hfv⟩

lemma convertBatch_wellFormed (data : List RawRecord)
    (h : ∀ r ∈ data, WellFormed r) :
    ∃ b, convertBatch data = some b ∧ List.Forall₂ Normalizes data b := by
  induction data with
  | nil => exact ⟨[], rfl, List.Forall₂.nil⟩
  | cons m rest ih =>
    obtain ⟨c, hc, hn⟩ := convertRecord_wellFormed m (h m (by simp))
    obtain ⟨b, hb, hfb⟩ := ih (fun r hr => h r (by simp [hr]))
    exact ⟨c :: b, by simp [convertBatch, hc, hb], List.Forall₂.cons hn hfb⟩

/-- C3: on a well-formed vendor payload the normalizer appends to the relay
queue exactly one batch of the same length, related record-by-record (hence
in the same order) to the payload by `Normalizes`: prices are the parsed
values, `time`/`start`/`end` are the raw milliseconds divided by 1000 plus
10800 seconds, and `confirm` is copied through unchanged. -/
theorem normalizer_wellformed (data : List RawRecord) (q : List Batch)
    (h : ∀ r ∈ data, WellFormed r) :
    ∃ b, convertBatch data = some b ∧ bybit_callback data q = q ++ [b] ∧
      b.length = data.length ∧ List.Forall₂ Normalizes data b := by
  obtain ⟨b, hb, hf⟩ := convertBatch_wellFormed data h
  exact ⟨b, hb, by simp [bybit_callback, hb],
    (List.Forall₂.length_eq hf).symm, hf⟩

/-- Witness for `normalizer_wellformed` on a one-record payload. -/
theorem normalizer_wellformed_witness :
    (∀ r ∈ [c3rec], WellFormed r) ∧
    (∃ b, convertBatch [c3rec] = some b ∧
      bybit_callback [c3rec] [] = [] ++ [b] ∧
      b.length = [c3rec].length ∧ List.Forall₂ Normalizes [c3rec] b) :=
  ⟨by decide, normalizer_wellformed [c3rec] [] (by decide)⟩

lemma convertRecord_malformed (r : RawRecord) (h : ¬ WellFormed r) :
    convertRecord r = none := by
  cases h1 : r.close with
  | none => simp [convertRecord, h1]
  | some v1 =>
  cases h2 : r.high with
  | none => simp [convertRecord, h1, h2]
  | some v2 =>
  cases h3 : r.low with
  | none => simp [convertRecord, h1, h2, h3]
  | some v3 =>
  cases h4 : r.open_ with
  | none => simp [convertRecord, h1, h2, h3, h4]
  | some v4 =>
  cases h5 : r.timestamp with
  | none => simp [convertRecord, h1, h2, h3, h4, h5]
  | some v5 =>
  cases h6 : r.start with
  | none => simp [convertRecord, h1, h2, h3, h4, h5, h6]
  | some v6 =>
  cases h7 : r.end_ with
  | none => simp [convertRecord, h1, h2, h3, h4, h5, h6, h7]
  | some v7 =>
  cases h8 : r.confirm with
  | none => simp [convertRecord, h1, h2, h3, h4, h5, h6, h7, h8]
  | some v8 =>
    exact absurd ⟨by simp [h1], by simp [h2], by simp [h3], by simp [h4],
      by simp [h5], by simp [h6], by simp [h7], by simp [h8]⟩ h

lemma convertBatch_malformed (data : List RawRecord) (r : RawRecord)
    (hr : r ∈ data) (h : ¬ WellFormed r) : convertBatch data = none := by
  induction data with
  | nil => cases hr
  | cons m rest ih =>
    rcases List.mem_cons.mp hr with rfl | hmem
    · have hnone := convertRecord_malformed r h
      simp [convertBatch, hnone]
    · cases hm : convertRecord m
      · simp [convertBatch, hm]
      · simp [convertBatch, hm, ih hmem]

/-- C4: a payload containing a malformed record (a missing or non-numeric
field) enqueues nothing: the relay queue is exactly as before, with no
partial batch. -/
theorem normalizer_malformed_drops (data : List RawRecord) (q : List Batch)
    (r : RawRecord) (hr : r ∈ data) (h : ¬ WellFormed r) :
    bybit_callback data q = q := by
  simp [bybit_callback, convertBatch_malformed data r hr h]

/-- Witness for `normalizer_malformed_drops`: a payload whose only record
misses its `close` field, against a one-batch queue. -/
theorem normalizer_malformed_drops_witness :
    c4rec ∈ [c3rec, c4rec] ∧ ¬ WellFormed c4rec ∧
    bybit_callback [c3rec, c4rec] [c1batch] = [c1batch] :=
  ⟨by simp, by decide,
   normalizer_malformed_drops [c3rec, c4rec] [c1batch] c4rec (by simp) (by decide)⟩

/-! ## Candle time-ordering -/

lemma convertRecord_some_inv (r : RawRecord) (c : Candle)
    (h : convertRecord r = some c) : Normalizes r c := by
  cases h1 : r.close with
  | none => simp [convertRecord, h1] at h
  | some v1 =>
  cases h2 : r.high with
  | none => simp [convertRecord, h1, h2] at h
  | some v2 =>
  cases h3 : r.low with
  | none => simp [convertRecord, h1, h2, h3] at h
  | some v3 =>
  cases h4 : r.open_ with
  | none => simp [convertRecord, h1, h2, h3, h4] at h
  | some v4 =>
  cases h5 : r.timestamp with
  | none => simp [convertRecord, h1, h2, h3, h4, h5] at h
  | some v5 =>
  cases h6 : r.start with
  | none => simp [convertRecord, h1, h2, h3, h4, h5, h6] at h
  | some v6 =>
  cases h7 : r.end_ with
  | none => simp [convertRecord, h1, h2, h3, h4, h5, h6, h7] at h
  | some v7 =>
  cases h8 : r.confirm with
  | none => simp [convertRecord, h1, h2, h3, h4, h5, h6, h7, h8] at h
  | some v8 =>
    simp only [convertRecord, h1, h2, h3, h4, h5, h6, h7, h8, Option.bind_eq_bind,
      Option.some_bind, Option.pure_def, Option.some.injEq] at h
    subst h
    exact ⟨by simp [h1], by simp [h2], by simp [h3], by simp [h4],
      ⟨v5, h5, by norm_num⟩, ⟨v6, h6, by norm_num⟩, ⟨v7, h7, by norm_num⟩,
      by simp [h8]⟩

/-- C9 counterexample: the claim that every candle built by the normalizer
satisfies `start ≤ time` fails on the code. `bybit_callback` converts the
raw fields independently and never compares them, so the raw record `c9rec`
(whose raw `start` of 2000000 ms exceeds its raw `timestamp` of 1000 ms)
is converted to a candle with `start > time`. -/
theorem candle_order_counterexample :
    convertRecord c9rec = some c9candle ∧ ¬ (c9candle.start ≤ c9candle.time) := by
  constructor
  · norm_num [convertRecord, c9rec, c9candle]
  · norm_num [c9candle]

/-- C9 amended: every candle built by the normalizer from a raw record whose
raw millisecond fields satisfy `start ≤ timestamp` and `start ≤ end` (as the
upstream venue guarantees for its kline ticks) satisfies
`startTime ≤ eventTime` and `startTime ≤ endTime`. -/
theorem candle_order_amended (r : RawRecord) (c : Candle) (st t en : ℚ)
    (hconv : convertRecord r = some c) (hst : r.start = some st)
    (ht : r.timestamp = some t) (hen : r.end_ = some en)
    (h1 : st ≤ t) (h2 : st ≤ en) :
    c.start ≤ c.time ∧ c.start ≤ c.end_ := by
  obtain ⟨-, -, -, -, ⟨t', ht', htime⟩, ⟨s', hs', hstart⟩, ⟨e', he', hend⟩, -⟩ :=
    convertRecord_some_inv r c hconv
  rw [ht] at ht'
  rw [hst] at hs'
  rw [hen] at he'
  obtain rfl := Option.some.inj ht'
  obtain rfl := Option.some.inj hs'
  obtain rfl := Option.some.inj he'
  rw [htime, hstart, hend]
  constructor <;> linarith

/-- Witness for `candle_order_amended` on a well-ordered raw record. -/
theorem candle_order_amended_witness :
    convertRecord c9brec = some c9bcandle ∧ c9brec.start = some 1000 ∧
    c9brec.timestamp = some 2000 ∧ c9brec.end_ = some 61000 ∧
    (1000 : ℚ) ≤ 2000 ∧ (1000 : ℚ) ≤ 61000 ∧
    (c9bcandle.start ≤ c9bcandle.time ∧ c9bcandle.start ≤ c9bcandle.end_) :=
  ⟨rfl, rfl, rfl, rfl, by decide, by decide,
   candle_order_amended c9brec c9bcandle 1000 2000 61000 rfl rfl rfl rfl
     (by decide) (by decide)⟩

/-! ## Historical query endpoint -/

/-- C8: the `/kline-history` response is the upstream result list reversed
(newest-first in, oldest-first out), each entry mapped to
`{time, open, high, low, close}` with `time` equal to the raw millisecond
timestamp divided by 1000 plus 10800 and the prices passed through; an
omitted `limit` makes the upstream call use 200, and a supplied `end` makes
the upstream call receive `(end - 10800) * 1000` milliseconds. -/
theorem kline_history_spec (category symbol interval : String)
    (limit : Option Int) (endv : Option ℚ)
    (get_kline : KlineParams → List RawHistEntry) :
    read_root category symbol interval limit endv get_kline
      = (get_kline (kline_params category symbol interval limit endv)).reverse.map
          (fun k => { time := k.item0 / 1000 + 10800, open_ := k.item1,
                      high := k.item2, low := k.item3, close := k.item4 }) ∧
    (limit = none → (kline_params category symbol interval limit endv).limit = 200) ∧
    (∀ e, endv = some e →
      (kline_params category symbol interval limit endv).end_
        = some ((e - 10800) * 1000)) := by
  refine ⟨?_, ?_, ?_⟩
  · rw [read_root, ← List.map_reverse]
    congr 1
    funext k
    simp only [convertHistEntry, HistCandle.mk.injEq]
    norm_num
  · intro h
    subst h
    cases endv <;> simp [kline_params, pyOrInt]
  · intro e he
    subst he
    simp only [kline_params]
    norm_num

/-- Witness for `kline_history_spec` with `limit` omitted and `end`
supplied. -/
theorem kline_history_spec_witness :
    read_root c8cat c8sym c8itv none (some 10900) c8gk
      = (c8gk (kline_params c8cat c8sym c8itv none (some 10900))).reverse.map
          (fun k => { time := k.item0 / 1000 + 10800, open_ := k.item1,
                      high := k.item2, low := k.item3, close := k.item4 }) ∧
    (kline_params c8cat c8sym c8itv none (some 10900)).limit = 200 ∧
    (kline_params c8cat c8sym c8itv none (some 10900)).end_
      = some (((10900 : ℚ) - 10800) * 1000) :=
  ⟨(kline_history_spec c8cat c8sym c8itv none (some 10900) c8gk).1,
   (kline_history_spec c8cat c8sym c8itv none (some 10900) c8gk).2.1 rfl,
   (kline_history_spec c8cat c8sym c8itv none (some 10900) c8gk).2.2 10900 rfl⟩

/-- C10: a supplied `limit` of 0 is Python-falsy, so `limit or 200` replaces
it by the default: the upstream call and the whole response are identical to
those of an omitted `limit`. -/
theorem limit_zero_default (category symbol interval : String) (endv : Option ℚ)
    (get_kline : KlineParams → List RawHistEntry) :
    kline_params category symbol interval (some 0) endv
      = kline_params category symbol interval none endv ∧
    (kline_params category symbol interval (some 0) endv).limit = 200 ∧
    read_root category symbol interval (some 0) endv get_kline
      = read_root category symbol interval none endv get_kline := by
  have h : kline_params category symbol interval (some 0) endv
      = kline_params category symbol interval none endv := by
    cases endv <;> simp [kline_params, pyOrInt]
  refine ⟨h, ?_, ?_⟩
  · rw [h]
    cases endv <;> simp [kline_params, pyOrInt]
  · rw [read_root, read_root, h]
